import Mathlib

/-!
Verification of the support-queue data-management core of the
`interview-helper` repository: queue-file persistence, intake validation,
backup creation/restore, data retention, export filtering and CSV
rendering.  The TypeScript sources are shallowly embedded: JS strings are
lists of characters, epoch-millisecond time values (the result of
`Date.prototype.getTime`) are integers, file-system state is passed
explicitly, and operations that can throw return `Except`.
-/

namespace InterviewHelper

/-- JS strings are modelled as lists of characters. -/
abbrev Str := List Char

/-- Coerce a Lean string literal to the character-list model. -/
def str (s : String) : Str := s.data

/-- The `urgency` enum of a support request (`'normal' | 'urgent'`,
`src/server/queue.ts`). -/
inductive Urgency
  | normal
  | urgent
deriving DecidableEq

/-- A `StoredSupportRequest` (`src/server/queue.ts`).  `createdAt` is the
time value of the record's ISO-8601 creation timestamp. -/
structure StoredSupportRequest where
  id : Str
  name : Str
  email : Str
  topic : Str
  message : Str
  urgency : Urgency
  createdAt : Int
deriving DecidableEq

/-! ## Queue Store (`src/server/queue.ts`)

The queue file holds text; `JSON.parse` classifies that text as
unparseable, a non-array JSON value, or a JSON array.  An array element is
either a proper support-request record or some other JSON value (the code
never checks which). -/

/-- An element of a parsed queue-file array. -/
inductive QueueElem
  | record (r : StoredSupportRequest)
  | other (v : Int)
deriving DecidableEq

/-- The queue file's content, classified by what `JSON.parse` does with
it. -/
inductive QueueFile
  | malformed
  | nonArrayJson
  | arr (elems : List QueueElem)
deriving DecidableEq

/-- Errors observable from `appendToQueue`: the `JSON.parse` failure from
`readQueue`, or the `TypeError` thrown by `queue.push` when the parsed
value is not an array. -/
inductive QueueError
  | parseError
  | typeError
deriving DecidableEq

/-- `ensureFile` (`src/server/queue.ts`): if the file is absent it is
initialised to `[]`; otherwise its content is untouched. -/
def ensureFile : Option QueueFile → QueueFile
  | none => .arr []
  | some f => f

/-- `readQueue` (`src/server/queue.ts`): ensure the file exists, then
`JSON.parse` its content.  The cast `as StoredSupportRequest[]` performs
no runtime check, so any successfully parsed value is returned. -/
def readQueue : QueueFile → Except QueueError QueueFile
  | .malformed => .error .parseError
  | f => .ok f

/-- `appendToQueue` (`src/server/queue.ts`): ensure the file, read and
parse the whole queue, `push` the new entry, and rewrite the file.  A
parse failure propagates before the write; `push` on a non-array parsed
value throws a `TypeError`, also before the write.  The second component
is the file content after the call. -/
def appendToQueue (entry : StoredSupportRequest) (file : Option QueueFile) :
    Except QueueError Unit × QueueFile :=
  let f := ensureFile file
  match readQueue f with
  | .error e => (.error e, f)
  | .ok .malformed => (.error .parseError, f)
  | .ok .nonArrayJson => (.error .typeError, f)
  | .ok (.arr es) => (.ok (), .arr (es ++ [.record entry]))

/-- A queue file that is a syntactically valid JSON sequence of support
requests: it parses to an array all of whose elements are records. -/
def validRecordSeq : QueueFile → Bool
  | .arr es => es.all fun e => match e with | .record _ => true | .other _ => false
  | _ => false

/-- A sample record used by concrete counterexamples and witnesses. -/
def sampleEntry : StoredSupportRequest :=
  { id := str "id-1"
    name := str "Ada Lovelace"
    email := str "ada@example.com"
    topic := str "Mock interviews"
    message := str "Help me prepare for system design."
    urgency := .normal
    createdAt := 1700000000000 }

/-! ## Intake validation (`src/server/app.ts`, `bodySchema` and the
`POST /support` handler)

`bodySchema` is a zod object schema: `name` at least 2 characters,
`email` syntactically valid, `topic` at least 3 characters, `message` at
least 10 characters, `urgency` one of `'normal' | 'urgent'`.  zod's
`.email()` check (a third-party dependency, not part of this repository's
sources) is embedded as an executable syntax check following zod's email
regular expression: a local part over `[A-Za-z0-9_'+-.]` not starting
with a dot, ending in a non-dot character, no `..` anywhere, followed by
`@` and a domain of one or more alphanumeric-hyphen labels and an
alphabetic top-level domain of length at least 2. -/

/-- ASCII letter test. -/
def isAsciiLetter (c : Char) : Bool :=
  (('a' ≤ c && c ≤ 'z') || ('A' ≤ c && c ≤ 'Z'))

/-- ASCII digit test. -/
def isAsciiDigit (c : Char) : Bool := ('0' ≤ c && c ≤ '9')

/-- ASCII alphanumeric test. -/
def isAlnum (c : Char) : Bool := isAsciiLetter c || isAsciiDigit c

/-- Characters allowed anywhere in an email local part. -/
def isLocalChar (c : Char) : Bool :=
  isAlnum c || c = '_' || c = '\'' || c = '+' || c = '-' || c = '.'

/-- Characters allowed as the final character of an email local part. -/
def isLocalEndChar (c : Char) : Bool :=
  isAlnum c || c = '_' || c = '+' || c = '-'

/-- Split a string at its first occurrence of `'@'`, if any. -/
def splitAtFirstAmp : Str → Option (Str × Str)
  | [] => none
  | c :: cs =>
    if c = '@' then some ([], cs)
    else
      match splitAtFirstAmp cs with
      | none => none
      | some (l, r) => some (c :: l, r)

/-- Split a string on a separator character (as `String.prototype.split`). -/
def splitOnChar (sep : Char) : Str → List Str
  | [] => [[]]
  | c :: rest =>
    match splitOnChar sep rest with
    | [] => [[c]]
    | l :: ls => if c = sep then [] :: l :: ls else (c :: l) :: ls

/-- Does the string contain two consecutive dots? -/
def hasDoubleDot : Str → Bool
  | [] => false
  | [_] => false
  | a :: b :: rest => (a = '.' && b = '.') || hasDoubleDot (b :: rest)

/-- A domain label: `[A-Za-z0-9][A-Za-z0-9-]*`. -/
def domainLabelOk : Str → Bool
  | [] => false
  | c :: cs => isAlnum c && cs.all fun d => isAlnum d || d = '-'

/-- A top-level domain: `[A-Za-z]{2,}`. -/
def tldOk (l : Str) : Bool := 2 ≤ l.length && l.all isAsciiLetter

/-- The domain side of zod's email check:
`([A-Za-z0-9][A-Za-z0-9-]*\.)+[A-Za-z]{2,}`. -/
def domainOk (d : Str) : Bool :=
  match (splitOnChar '.' d).reverse with
  | [] => false
  | [_] => false
  | tld :: labs => tldOk tld && labs.all domainLabelOk

/-- zod's `.email()` syntax check. -/
def emailValid (s : Str) : Bool :=
  match splitAtFirstAmp s with
  | none => false
  | some (lpart, domain) =>
    (match s with | '.' :: _ => false | _ => true) &&
    !hasDoubleDot s &&
    (match lpart.reverse with
     | [] => false
     | lastc :: _ => isLocalEndChar lastc) &&
    lpart.all isLocalChar &&
    domainOk domain

/-- A raw `POST /support` body: the five fields as uninterpreted text. -/
structure RawPayload where
  name : Str
  email : Str
  topic : Str
  message : Str
  urgency : Str
deriving DecidableEq

/-- `z.string().min(2)` on `name`. -/
def checkNameLen (p : RawPayload) : Bool := decide (2 ≤ p.name.length)

/-- `z.string().min(3)` on `topic`. -/
def checkTopicLen (p : RawPayload) : Bool := decide (3 ≤ p.topic.length)

/-- `z.string().min(10)` on `message`. -/
def checkMessageLen (p : RawPayload) : Bool := decide (10 ≤ p.message.length)

/-- `z.enum(['normal', 'urgent'])` on `urgency`. -/
def parseUrgency (s : Str) : Option Urgency :=
  if s = str "normal" then some .normal
  else if s = str "urgent" then some .urgent
  else none

/-- The per-field issue map produced by `parsed.error.format()`:
one flag per field of `bodySchema`, true when that field's constraint is
violated. -/
structure FieldIssues where
  name : Bool
  email : Bool
  topic : Bool
  message : Bool
  urgency : Bool
deriving DecidableEq

/-- The issue map with no violations. -/
def noIssues : FieldIssues :=
  { name := false, email := false, topic := false, message := false, urgency := false }

/-- Validation of a raw body against `bodySchema`: each field's flag is set
exactly when its constraint fails. -/
def bodySchemaIssues (p : RawPayload) : FieldIssues :=
  { name := !checkNameLen p
    email := !emailValid p.email
    topic := !checkTopicLen p
    message := !checkMessageLen p
    urgency := (parseUrgency p.urgency).isNone }

/-- `bodySchema.safeParse`: success iff no field has an issue. -/
def bodySchemaSafeParse (p : RawPayload) : Except FieldIssues RawPayload :=
  if bodySchemaIssues p = noIssues then .ok p else .error (bodySchemaIssues p)

/-- The HTTP responses the `POST /support` handler can produce. -/
inductive SupportResponse
  | badRequest (details : FieldIssues)
  | created (id : Str)
  | serverError
deriving DecidableEq

/-- The `POST /support` handler (`src/server/app.ts`): validate the body
with `bodySchema.safeParse`; on failure answer 400 with the field issue
map, without touching the queue file; on success build the entry with a
fresh id and the current timestamp, append it, and answer 201.  An append
failure falls to the error middleware (500). -/
def postSupport (p : RawPayload) (newId : Str) (now : Int) (file : Option QueueFile) :
    SupportResponse × Option QueueFile :=
  match bodySchemaSafeParse p with
  | .error issues => (.badRequest issues, file)
  | .ok body =>
    match parseUrgency body.urgency with
    | none => (.serverError, file)
    | some u =>
      let entry : StoredSupportRequest :=
        { id := newId, name := body.name, email := body.email, topic := body.topic,
          message := body.message, urgency := u, createdAt := now }
      match appendToQueue entry file with
      | (.ok _, f2) => (.created newId, some f2)
      | (.error _, f2) => (.serverError, some f2)

/-- A payload violating only the `name` minimum-length constraint. -/
def shortNamePayload : RawPayload :=
  { name := str "A"
    email := str "ada@example.com"
    topic := str "Mock interviews"
    message := str "Help me prepare for system design."
    urgency := str "normal" }

/-! ## Theorems for the Queue Store and Intake Handler claims -/

/-- C9 counterexample: a queue file holding the JSON array `[1]` is not a
valid sequence of records, yet `appendToQueue` does not fail — it appends
the entry and rewrites the file, changing its content. -/
theorem appendToQueue_succeeds_on_nonrecord_array :
    validRecordSeq (.arr [.other 1]) = false ∧
    (appendToQueue sampleEntry (some (.arr [.other 1]))).1 = .ok () ∧
    (appendToQueue sampleEntry (some (.arr [.other 1]))).2 ≠ .arr [.other 1] := by
  refine ⟨rfl, rfl, ?_⟩
  decide

/-- C9 (amended): when the queue file's content is not syntactically valid
JSON, `appendToQueue` propagates the parse error raised by the initial
read and performs no write: the file content is unchanged. -/
theorem appendToQueue_malformed_no_write (entry : StoredSupportRequest) :
    appendToQueue entry (some .malformed) = (.error .parseError, .malformed) := rfl

/-- C3: for every payload violating at least one field constraint, the
`POST /support` handler answers 400 carrying the issue map, the queue file
is untouched, and the issue map flags exactly the violated fields. -/
theorem submit_invalid_payload_reports_exact_fields (p : RawPayload) (newId : Str)
    (now : Int) (file : Option QueueFile)
    (h : p.name.length < 2 ∨ emailValid p.email = false ∨ p.topic.length < 3 ∨
         p.message.length < 10 ∨ parseUrgency p.urgency = none) :
    postSupport p newId now file = (.badRequest (bodySchemaIssues p), file) ∧
    ((bodySchemaIssues p).name = true ↔ p.name.length < 2) ∧
    ((bodySchemaIssues p).email = true ↔ emailValid p.email = false) ∧
    ((bodySchemaIssues p).topic = true ↔ p.topic.length < 3) ∧
    ((bodySchemaIssues p).message = true ↔ p.message.length < 10) ∧
    ((bodySchemaIssues p).urgency = true ↔ parseUrgency p.urgency = none) := by
  have hiff :
      ((bodySchemaIssues p).name = true ↔ p.name.length < 2) ∧
      ((bodySchemaIssues p).email = true ↔ emailValid p.email = false) ∧
      ((bodySchemaIssues p).topic = true ↔ p.topic.length < 3) ∧
      ((bodySchemaIssues p).message = true ↔ p.message.length < 10) ∧
      ((bodySchemaIssues p).urgency = true ↔ parseUrgency p.urgency = none) := by
    simp only [bodySchemaIssues, checkNameLen, checkTopicLen, checkMessageLen,
      Bool.not_eq_true', decide_eq_false_iff_not, Nat.not_le,
      Option.isNone_iff_eq_none]
    exact ⟨trivial, trivial, trivial, trivial, trivial⟩
  have hne : bodySchemaIssues p ≠ noIssues := by
    intro heq
    rcases h with h1 | h1 | h1 | h1 | h1
    · have := hiff.1.mpr h1
      rw [heq] at this
      exact Bool.false_ne_true this
    · have := hiff.2.1.mpr h1
      rw [heq] at this
      exact Bool.false_ne_true this
    · have := hiff.2.2.1.mpr h1
      rw [heq] at this
      exact Bool.false_ne_true this
    · have := hiff.2.2.2.1.mpr h1
      rw [heq] at this
      exact Bool.false_ne_true this
    · have := hiff.2.2.2.2.mpr h1
      rw [heq] at this
      exact Bool.false_ne_true this
  refine ⟨?_, hiff⟩
  unfold postSupport bodySchemaSafeParse
  rw [if_neg hne]

/-- C3 witness: a payload whose only violation is a one-character name is
rejected with a 400, the queue file stays untouched, and exactly the name
field is flagged. -/
theorem submit_invalid_payload_witness :
    postSupport shortNamePayload (str "id-2") 0 none =
      (.badRequest (bodySchemaIssues shortNamePayload), none) ∧
    bodySchemaIssues shortNamePayload =
      { name := true, email := false, topic := false, message := false, urgency := false } :=
  ⟨(submit_invalid_payload_reports_exact_fields shortNamePayload (str "id-2") 0 none
      (Or.inl (by decide))).1,
   by decide⟩

/-! ## Backup Manager (`src/server/utils/backup.ts`)

Backups live in a directory modelled as an association list from filename
to file content; a write conses at the front and lookup takes the first
match, so rewriting an existing name shadows the old content, as on a
file system.  The queue file is modelled here at the record level (the
Backup Manager always rewrites it with a serialised array).  Timestamps
are epoch-millisecond integers; the ISO strings the code stores order
exactly as their time values do.  A record read back from a backup file
may lack `urgency` or `createdAt` (the code never checks them), so the
record type carries them optionally; `new Date(undefined)` is an invalid
date whose comparisons are all false, which `dateAfter` mirrors. -/

/-- `BackupMetadata` (timestamp as a time value). -/
structure BackupMetadata where
  timestamp : Int
  totalRequests : Nat
  fileSize : Int
  version : Str
deriving DecidableEq

/-- A record as found in a backup file's `data` array: the five
always-validated text fields, plus `urgency` and `createdAt` which may be
absent. -/
structure BackupRecord where
  id : Str
  name : Str
  email : Str
  topic : Str
  message : Str
  urgency : Option Urgency
  createdAt : Option Int
deriving DecidableEq

/-- A parsed backup file: `{metadata, data}`, where `data` is absent or
not an array (`none`) or a JSON array of records. -/
structure BackupFileJson where
  metadata : BackupMetadata
  data : Option (List BackupRecord)
deriving DecidableEq

/-- A file in the backup directory: either its content parses as a backup
JSON document, or `JSON.parse` fails on it. -/
inductive BackupDirFile
  | json (b : BackupFileJson)
  | garbage
deriving DecidableEq

/-- The state the Backup Manager acts on: the queue file's records and the
backup directory. -/
structure BackupState where
  queue : List BackupRecord
  backups : List (Str × BackupDirFile)
deriving DecidableEq

/-- `generateBackupFilename`: a name embedding the creation timestamp. -/
def genBackupFilename (now : Int) : Str :=
  str "support-queue-backup-" ++ (toString now).data ++ str ".json"

/-- The backup document `createBackup` writes for queue `q` at time `now`
with source file size `fileSize`. -/
def backupEntryFor (now fileSize : Int) (q : List BackupRecord) : BackupFileJson :=
  { metadata :=
      { timestamp := now
        totalRequests := q.length
        fileSize := fileSize
        version := str "1.0" }
    data := some q }

/-- The `BackupInfo` value returned by `createBackup` and `listBackups`
(the redundant `path` field is omitted: the directory is fixed). -/
structure BackupInfo where
  filename : Str
  metadata : BackupMetadata
deriving DecidableEq

/-- `createBackup` (`src/server/utils/backup.ts` lines 196-238): read the
queue, wrap it with metadata, write it to a fresh timestamp-named file in
the backup directory, and return the metadata. -/
def createBackup (now fileSize : Int) (st : BackupState) : BackupInfo × BackupState :=
  let entry := backupEntryFor now fileSize st.queue
  let fname := genBackupFilename now
  ({ filename := fname, metadata := entry.metadata },
   { st with backups := (fname, .json entry) :: st.backups })

/-- Look a filename up in the backup directory (first match wins). -/
def lookupBackup (fname : Str) : List (Str × BackupDirFile) → Option BackupDirFile
  | [] => none
  | (n, f) :: rest => if n = fname then some f else lookupBackup fname rest

/-- The failures `restoreFromBackup` can raise: the missing-file error
from `fs.access`, the `JSON.parse` error, and the two
`InvalidBackupFormatError` cases. -/
inductive RestoreError
  | fileNotFound
  | parseError
  | noDataArray
  | missingRequiredFields
deriving DecidableEq

/-- The structural validation `restoreFromBackup` applies to each record:
`id`, `name`, `email`, `topic` and `message` must be truthy, i.e.
present and non-empty; `urgency` and `createdAt` are not inspected. -/
def hasRequiredFields (r : BackupRecord) : Bool :=
  !r.id.isEmpty && !r.name.isEmpty && !r.email.isEmpty &&
    !r.topic.isEmpty && !r.message.isEmpty

/-- `restoreFromBackup` (`src/server/utils/backup.ts` lines 281-325):
check the named file exists, parse it, require a `data` array whose
records all pass `hasRequiredFields`, create a safety backup of the
current queue, then overwrite the queue file with the backup's data. -/
def restoreFromBackup (fname : Str) (now fileSize : Int) (st : BackupState) :
    Except RestoreError BackupState :=
  match lookupBackup fname st.backups with
  | none => .error .fileNotFound
  | some .garbage => .error .parseError
  | some (.json bf) =>
    match bf.data with
    | none => .error .noDataArray
    | some data =>
      if data.all hasRequiredFields then
        .ok { (createBackup now fileSize st).2 with queue := data }
      else .error .missingRequiredFields

/-- `requestDate > cutoffDate` in `applyDataRetention`: strict comparison
of the record's creation time against the cutoff; a missing `createdAt`
yields an invalid date, whose comparisons are all false. -/
def dateAfter (createdAt : Option Int) (cutoff : Int) : Bool :=
  match createdAt with
  | some t => decide (cutoff < t)
  | none => false

/-- `applyDataRetention` (`src/server/utils/backup.ts` lines 373-413):
keep the records strictly newer than `now - retentionPeriod`; when at
least one record is removed, first back up the full queue, then rewrite
the queue file with the kept records; otherwise do nothing. -/
def applyDataRetention (now retentionPeriod fileSize : Int) (st : BackupState) :
    BackupState :=
  let cutoff := now - retentionPeriod
  let filteredQueue := st.queue.filter fun r => dateAfter r.createdAt cutoff
  if filteredQueue.length < st.queue.length then
    { (createBackup now fileSize st).2 with queue := filteredQueue }
  else st

/-- A full support-request record with creation time `t`, as stored in a
backup's `data` array. -/
def bkRecord (t : Int) : BackupRecord :=
  { id := str "id-1"
    name := str "Ada Lovelace"
    email := str "ada@example.com"
    topic := str "Mock interviews"
    message := str "Help me prepare for system design."
    urgency := some .normal
    createdAt := some t }

/-- A record that passes `restoreFromBackup`'s validation although it lacks
`urgency` and `createdAt` entirely. -/
def subSchemaRecord : BackupRecord :=
  { id := str "id-9"
    name := str "Ada Lovelace"
    email := str "ada@example.com"
    topic := str "Mock interviews"
    message := str "Help me prepare for system design."
    urgency := none
    createdAt := none }

/-- When lookup finds a parsed backup whose `data` array passes field
validation, `restoreFromBackup` creates the safety backup and overwrites
the queue with the data. -/
theorem restoreFromBackup_ok_of_valid (fname : Str) (now sz : Int) (st : BackupState)
    (bf : BackupFileJson) (d : List BackupRecord)
    (hfind : lookupBackup fname st.backups = some (.json bf))
    (hd : bf.data = some d)
    (hv : ∀ r ∈ d, hasRequiredFields r = true) :
    restoreFromBackup fname now sz st =
      .ok { queue := d,
            backups := (genBackupFilename now, .json (backupEntryFor now sz st.queue)) ::
              st.backups } := by
  have hall : d.all hasRequiredFields = true := List.all_eq_true.mpr hv
  simp only [restoreFromBackup, hfind, hd, hall, if_true, createBackup]

/-- C1: creating a backup and immediately restoring from the filename it
returned rewrites the queue file with exactly the records that were in the
queue at backup time, in the same order — for any queue of records
satisfying the data-model invariant (the five text fields non-empty),
including the empty queue. -/
theorem backup_restore_round_trip (st : BackupState) (now sz now2 sz2 : Int)
    (h : ∀ r ∈ st.queue, hasRequiredFields r = true) :
    restoreFromBackup (createBackup now sz st).1.filename now2 sz2 (createBackup now sz st).2 =
      .ok { queue := st.queue,
            backups := (genBackupFilename now2, .json (backupEntryFor now2 sz2 st.queue)) ::
              (createBackup now sz st).2.backups } := by
  have hfind :
      lookupBackup (createBackup now sz st).1.filename (createBackup now sz st).2.backups =
        some (.json (backupEntryFor now sz st.queue)) := by
    simp [createBackup, lookupBackup]
  exact restoreFromBackup_ok_of_valid _ _ _ _ (backupEntryFor now sz st.queue) st.queue
    hfind rfl h

/-- C1 witness: the round trip on the empty queue restores the empty
queue. -/
theorem backup_restore_round_trip_witness :
    restoreFromBackup (createBackup 5 0 ⟨[], []⟩).1.filename 6 0 (createBackup 5 0 ⟨[], []⟩).2 =
      .ok { queue := [],
            backups := (genBackupFilename 6, .json (backupEntryFor 6 0 [])) ::
              (createBackup 5 0 ⟨[], []⟩).2.backups } :=
  backup_restore_round_trip ⟨[], []⟩ 5 0 6 0 (by simp)

/-- C2: `applyDataRetention` keeps exactly the records created strictly
after `now - retentionPeriod`.  When nothing would be dropped it is a
no-op — queue and backup directory both unchanged; when at least one
record would be dropped it first writes a backup containing the full
pre-retention queue and then rewrites the queue file with the kept
records. -/
theorem applyDataRetention_spec (now p sz : Int) (st : BackupState) :
    ((∀ r ∈ st.queue, dateAfter r.createdAt (now - p) = true) →
        applyDataRetention now p sz st = st) ∧
    ((∃ r ∈ st.queue, dateAfter r.createdAt (now - p) = false) →
        applyDataRetention now p sz st =
          { queue := st.queue.filter fun r => dateAfter r.createdAt (now - p),
            backups := (genBackupFilename now, .json (backupEntryFor now sz st.queue)) ::
              st.backups }) := by
  constructor
  · intro h
    have hself : st.queue.filter (fun r => dateAfter r.createdAt (now - p)) = st.queue :=
      List.filter_eq_self.mpr h
    simp only [applyDataRetention, hself, Nat.lt_irrefl, if_false]
  · intro h
    have hlt :
        (st.queue.filter fun r => dateAfter r.createdAt (now - p)).length <
          st.queue.length := by
      rw [List.length_filter_lt_length_iff_exists]
      obtain ⟨r, hr, hfalse⟩ := h
      exact ⟨r, hr, by simp [hfalse]⟩
    simp only [applyDataRetention, hlt, if_true, createBackup]

/-- C2 witness: with cutoff `-10`, a queue whose single record was created
at time `5` is untouched (no backup written), while a queue whose single
record was created at time `-50` is emptied after a backup of the full
pre-retention queue is written. -/
theorem applyDataRetention_witness :
    applyDataRetention 10 20 0 { queue := [bkRecord 5], backups := [] } =
      { queue := [bkRecord 5], backups := [] } ∧
    applyDataRetention 10 20 0 { queue := [bkRecord (-50)], backups := [] } =
      { queue := [],
        backups := [(genBackupFilename 10, .json (backupEntryFor 10 0 [bkRecord (-50)]))] } := by
  constructor
  · exact (applyDataRetention_spec 10 20 0 _).1 (by decide)
  · have h2 := (applyDataRetention_spec 10 20 0
      { queue := [bkRecord (-50)], backups := [] }).2 (by decide)
    rw [h2]
    rfl

/-- The backup document whose declared `totalRequests` (5) contradicts its
own one-element `data` array. -/
def mismatchedFile : BackupFileJson :=
  { metadata := { timestamp := 0, totalRequests := 5, fileSize := 0, version := str "1.0" }
    data := some [bkRecord 0] }

/-- A state whose backup directory holds only the mismatched backup. -/
def mismatchedState : BackupState :=
  { queue := [], backups := [(str "support-queue-backup-0001.json", .json mismatchedFile)] }

/-- C4 counterexample: restoring from a backup whose declared record count
(5) differs from its data array length (1) does NOT fail — it succeeds and
overwrites the queue file with the data array. -/
theorem restore_mismatched_count_not_rejected :
    mismatchedFile.metadata.totalRequests ≠ (mismatchedFile.data.getD []).length ∧
    restoreFromBackup (str "support-queue-backup-0001.json") 7 3 mismatchedState =
      .ok { queue := [bkRecord 0],
            backups := (genBackupFilename 7, .json (backupEntryFor 7 3 [])) ::
              mismatchedState.backups } ∧
    [bkRecord 0] ≠ mismatchedState.queue := by
  refine ⟨by decide, ?_, by decide⟩
  rfl

/-- C4 (amended): `restoreFromBackup` never compares the declared
`totalRequests` with the `data` array length: whatever the metadata
declares, a backup whose records pass field validation restores
successfully and the queue file is overwritten with the data array. -/
theorem restoreFromBackup_ignores_declared_count (fname : Str) (now sz : Int)
    (md : BackupMetadata) (d q : List BackupRecord)
    (hv : ∀ r ∈ d, hasRequiredFields r = true) :
    restoreFromBackup fname now sz
        { queue := q, backups := [(fname, .json { metadata := md, data := some d })] } =
      .ok { queue := d,
            backups := (genBackupFilename now, .json (backupEntryFor now sz q)) ::
              [(fname, .json { metadata := md, data := some d })] } :=
  restoreFromBackup_ok_of_valid fname now sz _ { metadata := md, data := some d } d
    (by simp [lookupBackup]) rfl hv

/-- C4 witness: the mismatched metadata (5 declared vs 1 actual) restores
successfully. -/
theorem restoreFromBackup_ignores_declared_count_witness :
    restoreFromBackup (str "b.json") 7 3
        { queue := [], backups := [(str "b.json", .json mismatchedFile)] } =
      .ok { queue := [bkRecord 0],
            backups := (genBackupFilename 7, .json (backupEntryFor 7 3 [])) ::
              [(str "b.json", .json mismatchedFile)] } :=
  restoreFromBackup_ignores_declared_count (str "b.json") 7 3 mismatchedFile.metadata
    [bkRecord 0] [] (by decide)

/-- C10: `restoreFromBackup`'s validation looks only at `id`, `name`,
`email`, `topic` and `message`: any backup whose records have those five
fields non-empty restores successfully even when every record lacks
`urgency` and `createdAt` entirely, and those sub-schema records are
written into the queue file. -/
theorem restore_persists_records_missing_optional_fields (fname : Str) (now sz : Int)
    (md : BackupMetadata) (d q : List BackupRecord)
    (hv : ∀ r ∈ d, hasRequiredFields r = true ∧ r.urgency = none ∧ r.createdAt = none) :
    restoreFromBackup fname now sz
        { queue := q, backups := [(fname, .json { metadata := md, data := some d })] } =
      .ok { queue := d,
            backups := (genBackupFilename now, .json (backupEntryFor now sz q)) ::
              [(fname, .json { metadata := md, data := some d })] } :=
  restoreFromBackup_ok_of_valid fname now sz _ { metadata := md, data := some d } d
    (by simp [lookupBackup]) rfl (fun r hr => (hv r hr).1)

/-- C10 witness: a record with the five required fields but neither
`urgency` nor `createdAt` is accepted by restore and persisted. -/
theorem restore_persists_subschema_witness :
    restoreFromBackup (str "b.json") 7 3
        { queue := [],
          backups := [(str "b.json",
            .json { metadata := (backupEntryFor 0 0 []).metadata,
                    data := some [subSchemaRecord] })] } =
      .ok { queue := [subSchemaRecord],
            backups := (genBackupFilename 7, .json (backupEntryFor 7 3 [])) ::
              [(str "b.json",
                .json { metadata := (backupEntryFor 0 0 []).metadata,
                        data := some [subSchemaRecord] })] } :=
  restore_persists_records_missing_optional_fields (str "b.json") 7 3
    (backupEntryFor 0 0 []).metadata [subSchemaRecord] [] (by decide)

/-! ## `listBackups` (`src/server/utils/backup.ts` lines 241-278)

`fs.readdir` order is arbitrary, so `listBackups` is a function of the
directory listing.  `Array.prototype.sort` is a stable comparator sort
(mandated by the ECMAScript specification); it is modelled by a stable
insertion sort under the comparator's ordering, descending by the
embedded metadata timestamp. -/

/-- `String.prototype.startsWith` on character lists. -/
def matchesFront : Str → Str → Bool
  | [], _ => true
  | _ :: _, [] => false
  | c :: cs, d :: ds => c = d && matchesFront cs ds

/-- `String.prototype.endsWith` on character lists. -/
def matchesBack (needle haystack : Str) : Bool :=
  matchesFront needle.reverse haystack.reverse

/-- The backup naming convention:
`support-queue-backup-*.json`. -/
def isBackupFilename (name : Str) : Bool :=
  matchesFront (str "support-queue-backup-") name && matchesBack (str ".json") name

/-- Reading and parsing one backup file: a parse failure is logged and
skipped (`none`); success contributes the filename and embedded
metadata. -/
def parseBackupEntry : Str × BackupDirFile → Option BackupInfo
  | (fname, .json b) => some { filename := fname, metadata := b.metadata }
  | (_, .garbage) => none

/-- The ordering the sort comparator
`(a, b) => new Date(b...).getTime() - new Date(a...).getTime()`
realises: `a` may precede `b` iff `b`'s timestamp is at most `a`'s. -/
def infoDescOrder (a b : BackupInfo) : Prop :=
  b.metadata.timestamp ≤ a.metadata.timestamp

instance : DecidableRel infoDescOrder := fun a b =>
  inferInstanceAs (Decidable (b.metadata.timestamp ≤ a.metadata.timestamp))

instance : IsTotal BackupInfo infoDescOrder :=
  ⟨fun a b => le_total b.metadata.timestamp a.metadata.timestamp⟩

instance : IsTrans BackupInfo infoDescOrder :=
  ⟨fun _ _ _ h1 h2 => le_trans h2 h1⟩

/-- Strict descending timestamp order, used to show the sorted output is
unique when the timestamps are distinct. -/
def infoDescStrict (a b : BackupInfo) : Prop :=
  b.metadata.timestamp < a.metadata.timestamp

instance : IsAntisymm BackupInfo infoDescStrict :=
  ⟨fun _ _ h1 h2 => absurd h2 (lt_asymm h1)⟩

/-- `listBackups`: keep the files matching the naming convention, parse
each one (skipping failures), and sort by embedded metadata timestamp,
newest first. -/
def listBackups (dir : List (Str × BackupDirFile)) : List BackupInfo :=
  List.insertionSort infoDescOrder
    ((dir.filter fun f => isBackupFilename f.1).filterMap parseBackupEntry)

/-- C7: `listBackups` returns exactly the successfully parsed files whose
names match the backup convention (a permutation of them), sorted by
embedded metadata timestamp newest-first; and whenever the timestamps are
distinct the result is independent of the file-system listing order. -/
theorem listBackups_sorted_skips_garbage (dir : List (Str × BackupDirFile)) :
    List.Perm (listBackups dir)
      ((dir.filter fun f => isBackupFilename f.1).filterMap parseBackupEntry) ∧
    (listBackups dir).Sorted infoDescOrder ∧
    ∀ dir2 : List (Str × BackupDirFile), List.Perm dir dir2 →
      ((listBackups dir).map fun b => b.metadata.timestamp).Nodup →
      listBackups dir = listBackups dir2 := by
  refine ⟨List.perm_insertionSort _ _, List.sorted_insertionSort _ _, ?_⟩
  intro dir2 hdir hnodup
  have hentries :
      List.Perm ((dir.filter fun f => isBackupFilename f.1).filterMap parseBackupEntry)
        ((dir2.filter fun f => isBackupFilename f.1).filterMap parseBackupEntry) :=
    (hdir.filter _).filterMap _
  have hperm : List.Perm (listBackups dir) (listBackups dir2) :=
    ((List.perm_insertionSort _ _).trans hentries).trans
      (List.perm_insertionSort _ _).symm
  have hstrict : ∀ l : List BackupInfo, l.Sorted infoDescOrder →
      (l.map fun b => b.metadata.timestamp).Nodup → l.Sorted infoDescStrict := by
    intro l hs hn
    have hne : l.Pairwise fun a b => a.metadata.timestamp ≠ b.metadata.timestamp :=
      List.pairwise_map.mp hn
    exact (hs.and hne).imp fun h => lt_of_le_of_ne h.1 (Ne.symm h.2)
  have hnodup2 : ((listBackups dir2).map fun b => b.metadata.timestamp).Nodup :=
    (hperm.map _).nodup hnodup
  exact List.eq_of_perm_of_sorted hperm
    (hstrict _ (List.sorted_insertionSort _ _) hnodup)
    (hstrict _ (List.sorted_insertionSort _ _) hnodup2)

/-- A directory listing: three backups created at times 100, 300 and 200
(not in timestamp order), one file whose name does not match the backup
convention, and one matching file with unparseable content. -/
def demoDir : List (Str × BackupDirFile) :=
  [(genBackupFilename 100, .json (backupEntryFor 100 0 [])),
   (str "notes.txt", .garbage),
   (genBackupFilename 300, .json (backupEntryFor 300 0 [bkRecord 1])),
   (str "support-queue-backup-corrupt.json", .garbage),
   (genBackupFilename 200, .json (backupEntryFor 200 0 []))]

/-- The same directory enumerated in a different file-system order. -/
def demoDirShuffled : List (Str × BackupDirFile) :=
  [(genBackupFilename 200, .json (backupEntryFor 200 0 [])),
   (genBackupFilename 300, .json (backupEntryFor 300 0 [bkRecord 1])),
   (str "support-queue-backup-corrupt.json", .garbage),
   (str "notes.txt", .garbage),
   (genBackupFilename 100, .json (backupEntryFor 100 0 []))]

/-- C7 witness: after creating three backups at distinct timestamps the
listing is those three newest-first — the unparseable file skipped, the
foreign name ignored — independent of the enumeration order. -/
theorem listBackups_witness :
    listBackups demoDir = listBackups demoDirShuffled ∧
    listBackups demoDir =
      [{ filename := genBackupFilename 300, metadata := (backupEntryFor 300 0 [bkRecord 1]).metadata },
       { filename := genBackupFilename 200, metadata := (backupEntryFor 200 0 []).metadata },
       { filename := genBackupFilename 100, metadata := (backupEntryFor 100 0 []).metadata }] :=
  ⟨(listBackups_sorted_skips_garbage demoDir).2.2 demoDirShuffled (by decide) (by decide),
   by decide⟩

/-! ## The backup/retention scheduler
(`src/server/utils/backup.ts` lines 416-449)

`backupInterval` is the module-level timer handle (`null` when stopped).
`armedTimers` counts the repeating timers currently armed in the runtime:
`setInterval` increments it, `clearInterval` decrements it. -/

/-- The scheduler's observable state. -/
structure SchedulerState where
  backupInterval : Option Unit
  armedTimers : Nat
deriving DecidableEq

/-- Initial module state: no handle stored, no timer armed. -/
def schedulerInit : SchedulerState := { backupInterval := none, armedTimers := 0 }

/-- `startAutomaticBackups`: if a timer is already stored, warn and return
(arming nothing); otherwise arm the repeating timer and store its
handle. -/
def startAutomaticBackups (s : SchedulerState) : SchedulerState :=
  match s.backupInterval with
  | some _ => s
  | none => { backupInterval := some (), armedTimers := s.armedTimers + 1 }

/-- `stopAutomaticBackups`: if a timer is stored, clear it and reset the
handle; otherwise do nothing. -/
def stopAutomaticBackups (s : SchedulerState) : SchedulerState :=
  match s.backupInterval with
  | some _ => { backupInterval := none, armedTimers := s.armedTimers - 1 }
  | none => s

/-- The scheduler's external events. -/
inductive SchedOp
  | start
  | stop
deriving DecidableEq

/-- One scheduler transition. -/
def schedStep (s : SchedulerState) : SchedOp → SchedulerState
  | .start => startAutomaticBackups s
  | .stop => stopAutomaticBackups s

/-- The state reached from module initialisation by a sequence of
`start`/`stop` calls. -/
def schedRun (ops : List SchedOp) : SchedulerState :=
  ops.foldl schedStep schedulerInit

/-- The scheduler invariant: exactly one timer is armed when a handle is
stored, none otherwise. -/
def schedInv (s : SchedulerState) : Prop :=
  s.armedTimers = if s.backupInterval.isSome then 1 else 0

theorem schedInv_step (s : SchedulerState) (h : schedInv s) (op : SchedOp) :
    schedInv (schedStep s op) := by
  cases op <;> cases hb : s.backupInterval <;>
    simp [schedInv, schedStep, startAutomaticBackups, stopAutomaticBackups, hb] at h ⊢ <;>
    omega

theorem schedRun_inv (ops : List SchedOp) : schedInv (schedRun ops) := by
  suffices h : ∀ s, schedInv s → schedInv (ops.foldl schedStep s) from h schedulerInit rfl
  induction ops with
  | nil => exact fun s hs => hs
  | cons op rest ih => exact fun s hs => ih _ (schedInv_step s hs op)

/-- C8: the scheduler is a two-state machine over {stopped, running}
(running iff a handle is stored): `start` on a stopped scheduler arms one
timer and stores the handle; `start` while running changes nothing (no
second timer); `stop` while running clears the timer; `stop` while
stopped is a no-op; and in every state reachable from initialisation at
most one timer is armed. -/
theorem scheduler_two_state_machine :
    (∀ s : SchedulerState, s.backupInterval = none →
        startAutomaticBackups s =
          { backupInterval := some (), armedTimers := s.armedTimers + 1 }) ∧
    (∀ s : SchedulerState, s.backupInterval.isSome = true → startAutomaticBackups s = s) ∧
    (∀ s : SchedulerState, s.backupInterval.isSome = true →
        stopAutomaticBackups s =
          { backupInterval := none, armedTimers := s.armedTimers - 1 }) ∧
    (∀ s : SchedulerState, s.backupInterval = none → stopAutomaticBackups s = s) ∧
    (∀ ops : List SchedOp, (schedRun ops).armedTimers ≤ 1) := by
  refine ⟨?_, ?_, ?_, ?_, ?_⟩
  · intro s hs
    simp [startAutomaticBackups, hs]
  · intro s hs
    obtain ⟨u, hu⟩ := Option.isSome_iff_exists.mp hs
    simp [startAutomaticBackups, hu]
  · intro s hs
    obtain ⟨u, hu⟩ := Option.isSome_iff_exists.mp hs
    simp [stopAutomaticBackups, hu]
  · intro s hs
    simp [stopAutomaticBackups, hs]
  · intro ops
    have h := schedRun_inv ops
    unfold schedInv at h
    rw [h]
    split <;> omega

/-- C8 witness: a second `start` on a running scheduler changes nothing,
and after the call sequence start, start, stop, stop, start exactly one
timer is armed. -/
theorem scheduler_two_state_machine_witness :
    startAutomaticBackups { backupInterval := some (), armedTimers := 1 } =
      { backupInterval := some (), armedTimers := 1 } ∧
    (schedRun [.start, .start, .stop, .stop, .start]).armedTimers ≤ 1 :=
  ⟨scheduler_two_state_machine.2.1 { backupInterval := some (), armedTimers := 1 } rfl,
   scheduler_two_state_machine.2.2.2.2 [.start, .start, .stop, .stop, .start]⟩

/-! ## Export Engine (`src/server/utils/export.ts`, `src/unnamed/part_004`)

`filterRequests` compares `new Date(request.createdAt)` against the
option's `start`/`end` `Date`s; all three enter only through their time
values, so they are integers here.  `exportToCsv` treats `createdAt` as
opaque text, so the CSV-side record keeps it as the stored ISO string. -/

/-- The `dateRange` export option (`start`/`end` as time values; the
source field names are `start` and `end`, renamed here because `end` is a
Lean keyword). -/
structure DateRange where
  startDate : Int
  endDate : Int
deriving DecidableEq

/-- The two filters of `ExportOptions` that `filterRequests` reads. -/
structure ExportOptions where
  dateRange : Option DateRange
  urgencyFilter : Option Urgency
deriving DecidableEq

/-- `requestDate >= start && requestDate <= end`: inclusive bounds. -/
def inDateRange (dr : DateRange) (r : StoredSupportRequest) : Bool :=
  decide (dr.startDate ≤ r.createdAt) && decide (r.createdAt ≤ dr.endDate)

/-- `filterRequests` (`src/unnamed/part_004` lines 100-118): apply the
date-range filter when given, then the urgency-equality filter when
given. -/
def filterRequests (requests : List StoredSupportRequest) (options : ExportOptions) :
    List StoredSupportRequest :=
  let afterDate :=
    match options.dateRange with
    | some dr => requests.filter fun r => inDateRange dr r
    | none => requests
  match options.urgencyFilter with
  | some u => afterDate.filter fun r => decide (r.urgency = u)
  | none => afterDate

/-- A record satisfies every given filter: within the inclusive date
bounds when a range is given, and of the given urgency when an urgency
filter is given. -/
def matchesFilters (options : ExportOptions) (r : StoredSupportRequest) : Bool :=
  (match options.dateRange with
   | some dr => inDateRange dr r
   | none => true) &&
  (match options.urgencyFilter with
   | some u => decide (r.urgency = u)
   | none => true)

/-- C6: `filterRequests` selects exactly the records satisfying every
given filter — the one-pass conjunction filter; in particular a lone
urgency filter yields exactly the matching-urgency subset, and adding a
date range intersects it with the in-range subset. -/
theorem filterRequests_intersection (requests : List StoredSupportRequest)
    (options : ExportOptions) :
    filterRequests requests options = requests.filter (matchesFilters options) ∧
    (∀ r, r ∈ filterRequests requests options ↔
        r ∈ requests ∧ matchesFilters options r = true) ∧
    (∀ u, filterRequests requests { dateRange := none, urgencyFilter := some u } =
        requests.filter fun r => decide (r.urgency = u)) := by
  have hmain : ∀ opts : ExportOptions,
      filterRequests requests opts = requests.filter (matchesFilters opts) := by
    intro opts
    obtain ⟨dr, u⟩ := opts
    cases dr with
    | none =>
      cases u with
      | none =>
        have h : matchesFilters { dateRange := none, urgencyFilter := none } =
            fun _ : StoredSupportRequest => true := funext fun _ => rfl
        rw [h, List.filter_true]
        rfl
      | some u =>
        have h : matchesFilters { dateRange := none, urgencyFilter := some u } =
            fun r : StoredSupportRequest => decide (r.urgency = u) :=
          funext fun r => Bool.true_and _
        rw [h]
        rfl
    | some dr =>
      cases u with
      | none =>
        have h : matchesFilters { dateRange := some dr, urgencyFilter := none } =
            fun r : StoredSupportRequest => inDateRange dr r :=
          funext fun r => Bool.and_true _
        rw [h]
        rfl
      | some u =>
        have h : matchesFilters { dateRange := some dr, urgencyFilter := some u } =
            fun r : StoredSupportRequest => decide (r.urgency = u) && inDateRange dr r :=
          funext fun r => Bool.and_comm _ _
        rw [h]
        show (requests.filter fun r => inDateRange dr r).filter
            (fun r => decide (r.urgency = u)) = _
        rw [List.filter_filter]
  refine ⟨hmain options, ?_, fun u => hmain { dateRange := none, urgencyFilter := some u }⟩
  intro r
  rw [hmain options]
  exact List.mem_filter

/-- C6 witness: on three concrete records, the urgent-only date-bounded
export selects exactly the intersection — the single urgent record inside
the range. -/
theorem filterRequests_intersection_witness :
    filterRequests
        [{ sampleEntry with urgency := .normal, createdAt := 100 },
         { sampleEntry with urgency := .urgent, createdAt := 200 },
         { sampleEntry with urgency := .urgent, createdAt := 400 }]
        { dateRange := some { startDate := 0, endDate := 300 },
          urgencyFilter := some .urgent } =
      [{ sampleEntry with urgency := .normal, createdAt := 100 },
       { sampleEntry with urgency := .urgent, createdAt := 200 },
       { sampleEntry with urgency := .urgent, createdAt := 400 }].filter
        (matchesFilters
          { dateRange := some { startDate := 0, endDate := 300 },
            urgencyFilter := some .urgent }) ∧
    [{ sampleEntry with urgency := .normal, createdAt := 100 },
     { sampleEntry with urgency := .urgent, createdAt := 200 },
     { sampleEntry with urgency := .urgent, createdAt := 400 }].filter
        (matchesFilters
          { dateRange := some { startDate := 0, endDate := 300 },
            urgencyFilter := some .urgent }) =
      [{ sampleEntry with urgency := .urgent, createdAt := 200 }] :=
  ⟨(filterRequests_intersection _ _).1, by decide⟩

/-- The support-request record as `exportToCsv` consumes it: `createdAt`
is the stored ISO-8601 text, written to the CSV verbatim. -/
structure CsvSupportRequest where
  id : Str
  name : Str
  email : Str
  topic : Str
  message : Str
  urgency : Urgency
  createdAt : Str
deriving DecidableEq

/-- `request.name.replace(/"/g, '""')`: double every double quote. -/
def escQuotes : Str → Str
  | [] => []
  | c :: cs => if c = '"' then '"' :: '"' :: escQuotes cs else c :: escQuotes cs

/-- Wrap a free-text field in double quotes, doubling internal quotes. -/
def quoteWrap (s : Str) : Str := '"' :: (escQuotes s ++ ['"'])

/-- The serialised urgency enum value. -/
def urgencyText : Urgency → Str
  | .normal => str "normal"
  | .urgent => str "urgent"

/-- `Array.prototype.join(sep)` over character lists. -/
def joinWithChar (sep : Char) : List Str → Str
  | [] => []
  | [s] => s
  | s :: rest => s ++ sep :: joinWithChar sep rest

/-- The CSV header cells `['ID', 'Name', 'Email', 'Topic', 'Message',
'Urgency', 'Created At']`. -/
def csvHeaders : List Str :=
  [str "ID", str "Name", str "Email", str "Topic", str "Message",
   str "Urgency", str "Created At"]

/-- The cells of one CSV row: `name`, `topic` and `message` quote-wrapped
with internal quotes doubled; `id`, `email`, `urgency` and `createdAt`
verbatim. -/
def csvFields (r : CsvSupportRequest) : List Str :=
  [r.id, quoteWrap r.name, r.email, quoteWrap r.topic, quoteWrap r.message,
   urgencyText r.urgency, r.createdAt]

/-- `exportToCsv` (`src/unnamed/part_004` lines 147-176): an empty result
set writes an empty file; otherwise the header row and one row per
record, rows joined with commas and lines with newlines. -/
def exportToCsv (requests : List CsvSupportRequest) : Str :=
  if requests.isEmpty then []
  else joinWithChar '\n' ((csvHeaders :: requests.map csvFields).map (joinWithChar ','))

/-- Split file content into its physical newline-separated lines. -/
def splitLines : Str → List Str
  | [] => [[]]
  | c :: rest =>
    match splitLines rest with
    | [] => [[c]]
    | l :: ls => if c = '\n' then [] :: l :: ls else (c :: l) :: ls

/-- No raw field of the record contains a physical newline (the rendered
urgency never does). -/
def recordHasNoNewlines (r : CsvSupportRequest) : Prop :=
  '\n' ∉ r.id ∧ '\n' ∉ r.name ∧ '\n' ∉ r.email ∧ '\n' ∉ r.topic ∧
    '\n' ∉ r.message ∧ '\n' ∉ r.createdAt

instance (r : CsvSupportRequest) : Decidable (recordHasNoNewlines r) :=
  inferInstanceAs (Decidable ('\n' ∉ r.id ∧ '\n' ∉ r.name ∧ '\n' ∉ r.email ∧
    '\n' ∉ r.topic ∧ '\n' ∉ r.message ∧ '\n' ∉ r.createdAt))

theorem splitLines_ne_nil (s : Str) : splitLines s ≠ [] := by
  induction s with
  | nil => exact fun h => List.noConfusion h
  | cons c rest ih =>
    simp only [splitLines]
    cases hsp : splitLines rest with
    | nil => exact fun h => List.noConfusion h
    | cons l ls =>
      by_cases hc : c = '\n' <;> simp [hc]

theorem splitLines_of_no_newline (l : Str) (h : '\n' ∉ l) : splitLines l = [l] := by
  induction l with
  | nil => rfl
  | cons c rest ih =>
    have hc : c ≠ '\n' := fun hceq => h (hceq ▸ List.mem_cons_self c rest)
    have hrest : '\n' ∉ rest := fun hm => h (List.mem_cons_of_mem _ hm)
    simp only [splitLines, ih hrest]
    simp [hc]

theorem splitLines_append_newline (l t : Str) (h : '\n' ∉ l) :
    splitLines (l ++ '\n' :: t) = l :: splitLines t := by
  induction l with
  | nil =>
    simp only [List.nil_append, splitLines]
    cases hsp : splitLines t with
    | nil => exact absurd hsp (splitLines_ne_nil t)
    | cons a as => simp
  | cons c rest ih =>
    have hc : c ≠ '\n' := fun hceq => h (hceq ▸ List.mem_cons_self c rest)
    have hrest : '\n' ∉ rest := fun hm => h (List.mem_cons_of_mem _ hm)
    have hstep : splitLines (c :: (rest ++ '\n' :: t)) =
        match splitLines (rest ++ '\n' :: t) with
        | [] => [[c]]
        | l :: ls => if c = '\n' then [] :: l :: ls else (c :: l) :: ls := rfl
    rw [List.cons_append, hstep, ih hrest]
    simp [hc]

theorem splitLines_joinWithChar (lines : List Str) (hne : lines ≠ [])
    (h : ∀ l ∈ lines, '\n' ∉ l) :
    splitLines (joinWithChar '\n' lines) = lines := by
  induction lines with
  | nil => exact absurd rfl hne
  | cons l rest ih =>
    cases rest with
    | nil => exact splitLines_of_no_newline l (h l (List.mem_cons_self _ _))
    | cons l2 rest2 =>
      have hstep : joinWithChar '\n' (l :: l2 :: rest2) =
          l ++ '\n' :: joinWithChar '\n' (l2 :: rest2) := rfl
      rw [hstep, splitLines_append_newline l _ (h l (List.mem_cons_self _ _)),
        ih (fun habs => List.noConfusion habs)
          (fun x hx => h x (List.mem_cons_of_mem _ hx))]

theorem escQuotes_no_newline (s : Str) (h : '\n' ∉ s) : '\n' ∉ escQuotes s := by
  induction s with
  | nil => simp [escQuotes]
  | cons c cs ih =>
    have hc : '\n' ≠ c := fun hceq => h (hceq ▸ List.mem_cons_self c cs)
    have hcs : '\n' ∉ cs := fun hm => h (List.mem_cons_of_mem _ hm)
    by_cases hq : c = '"' <;>
      simp [escQuotes, hq, List.mem_cons, not_or, ih hcs, hc]

theorem quoteWrap_no_newline (s : Str) (h : '\n' ∉ s) : '\n' ∉ quoteWrap s := by
  simp only [quoteWrap, List.mem_cons, List.mem_append, List.mem_singleton, not_or]
  exact ⟨by decide, escQuotes_no_newline s h, by decide⟩

theorem urgencyText_no_newline (u : Urgency) : '\n' ∉ urgencyText u := by
  cases u <;> decide

theorem joinWithChar_comma_no_newline (fields : List Str)
    (h : ∀ f ∈ fields, '\n' ∉ f) : '\n' ∉ joinWithChar ',' fields := by
  induction fields with
  | nil => simp [joinWithChar]
  | cons f rest ih =>
    cases rest with
    | nil => exact h f (List.mem_cons_self _ _)
    | cons g rest2 =>
      have hstep : joinWithChar ',' (f :: g :: rest2) =
          f ++ ',' :: joinWithChar ',' (g :: rest2) := rfl
      rw [hstep]
      intro hm
      rcases List.mem_append.mp hm with h1 | h1
      · exact h f (List.mem_cons_self _ _) h1
      · rcases List.mem_cons.mp h1 with h2 | h2
        · exact absurd h2 (by decide)
        · exact ih (fun x hx => h x (List.mem_cons_of_mem _ hx)) h2

theorem csvFields_no_newline (r : CsvSupportRequest) (h : recordHasNoNewlines r) :
    ∀ f ∈ csvFields r, '\n' ∉ f := by
  obtain ⟨h1, h2, h3, h4, h5, h6⟩ := h
  intro f hf
  simp only [csvFields, List.mem_cons, List.not_mem_nil, or_false] at hf
  rcases hf with rfl | rfl | rfl | rfl | rfl | rfl | rfl
  · exact h1
  · exact quoteWrap_no_newline _ h2
  · exact h3
  · exact quoteWrap_no_newline _ h4
  · exact quoteWrap_no_newline _ h5
  · exact urgencyText_no_newline _
  · exact h6

/-- A record whose `message` contains a raw newline (allowed by intake
validation, which only requires 10 or more characters). -/
def nlRecord : CsvSupportRequest :=
  { id := str "id-1"
    name := str "Ada Lovelace"
    email := str "ada@example.com"
    topic := str "Mock interviews"
    message := str "Line one\nline two!!"
    urgency := .normal
    createdAt := str "2024-01-01T00:00:00.000Z" }

/-- C5 counterexample: exporting one record whose `message` holds a
newline yields 3 physical newline-separated lines, not N + 1 = 2 — the
code does not escape newlines inside fields. -/
theorem exportToCsv_newline_breaks_line_count :
    (splitLines (exportToCsv [nlRecord])).length ≠ [nlRecord].length + 1 ∧
    (splitLines (exportToCsv [nlRecord])).length = 3 :=
  ⟨by decide, by decide⟩

/-- C5 (amended): CSV export of an empty filtered set writes a zero-byte
file, and for `N ≥ 1` records none of whose fields contains a newline the
file has exactly `N + 1` newline-separated lines — the header row followed
by one comma-joined row per record in queue order (with `name`, `topic`
and `message` quote-wrapped and internal quotes doubled, and `id`,
`email`, `urgency`, `createdAt` unquoted, as `csvFields` renders them). -/
theorem exportToCsv_line_structure :
    exportToCsv [] = [] ∧
    ∀ requests : List CsvSupportRequest, requests ≠ [] →
      (∀ r ∈ requests, recordHasNoNewlines r) →
      splitLines (exportToCsv requests) =
        (csvHeaders :: requests.map csvFields).map (joinWithChar ',') ∧
      (splitLines (exportToCsv requests)).length = requests.length + 1 := by
  refine ⟨rfl, ?_⟩
  intro rs hne h
  have hEmp : rs.isEmpty = false := by
    cases rs with
    | nil => exact absurd rfl hne
    | cons a as => rfl
  have hlines : ∀ l ∈ (csvHeaders :: rs.map csvFields).map (joinWithChar ','),
      '\n' ∉ l := by
    intro l hl
    rcases List.mem_map.mp hl with ⟨cells, hcells, rfl⟩
    rcases List.mem_cons.mp hcells with rfl | hcells2
    · exact joinWithChar_comma_no_newline _ (by decide)
    · rcases List.mem_map.mp hcells2 with ⟨r, hr, rfl⟩
      exact joinWithChar_comma_no_newline _ (csvFields_no_newline r (h r hr))
  have hjoin : exportToCsv rs =
      joinWithChar '\n' ((csvHeaders :: rs.map csvFields).map (joinWithChar ',')) := by
    simp [exportToCsv, hEmp]
  have hsplit : splitLines (exportToCsv rs) =
      (csvHeaders :: rs.map csvFields).map (joinWithChar ',') := by
    rw [hjoin]
    exact splitLines_joinWithChar _ (fun habs => List.noConfusion habs) hlines
  refine ⟨hsplit, ?_⟩
  rw [hsplit]
  simp [Nat.add_comm]

/-- Two well-formed records, the first with internal double quotes in its
name. -/
def csvRecA : CsvSupportRequest :=
  { id := str "a1"
    name := str "Ada \"Countess\" Lovelace"
    email := str "ada@example.com"
    topic := str "Mock interviews"
    message := str "Help me prepare for system design."
    urgency := .urgent
    createdAt := str "2024-01-01T00:00:00.000Z" }

def csvRecB : CsvSupportRequest :=
  { id := str "b2"
    name := str "Grace Hopper"
    email := str "grace@example.com"
    topic := str "Compilers"
    message := str "Walk me through parsing basics."
    urgency := .normal
    createdAt := str "2024-02-01T00:00:00.000Z" }

/-- C5 witness: exporting two newline-free records yields exactly 3
newline-separated lines, and the empty export is a zero-byte file. -/
theorem exportToCsv_line_structure_witness :
    (splitLines (exportToCsv [csvRecA, csvRecB])).length = [csvRecA, csvRecB].length + 1 ∧
    exportToCsv [] = [] :=
  ⟨(exportToCsv_line_structure.2 [csvRecA, csvRecB]
      (fun habs => List.noConfusion habs) (by decide)).2,
   exportToCsv_line_structure.1⟩

end InterviewHelper
